import Mathlib

/-!
Verification of the debugstore subsystem (libs/debugstore/rust/src).

The development shallowly embeds two implementation variants found in the
source tree:

* the mutex-based variant (`debug_store/debug_store_storage.rs` and
  `debug_store/core.rs`): `InsertOnlyRingBuffer`, `DebugStoreStorage`
  and `DebugStore`;
* the queue-based variant (`storage.rs` and `core.rs`): `ArrayQueue`,
  `Storage` and `QueueCore.DebugStore`.

Machine integers (`u64`, `usize`) are modelled as `Nat`; where wrap-around
matters (the atomic counters updated with `fetch_add`) the update is taken
modulo `2 ^ 64`.  Real time does not exist in the embedding: the outcome of
a bounded lock acquisition (`try_lock_for`) is an explicit `acquired : Bool`
parameter of each operation, and clock readings (`Instant::now`,
`SystemTime::now`) are explicit `Nat` parameters.
-/

namespace DebugStoreModel

/-- Modulus of the 64-bit unsigned counters. -/
def U64 : Nat := 2 ^ 64

/-- Modelled from the spec: the event kind tag of the Event Model
(`event_type.rs` is not part of the provided sources).
"kind: {Point, DurationStart, DurationEnd} — tag, immutable after
construction." -/
inductive EventType where
  | Point
  | DurationStart
  | DurationEnd
deriving DecidableEq, Repr

/-- Modelled from the spec: the stored value type of the Event Model
(`event.rs` / `debug_store_event.rs` are not part of the provided sources).
"an identifier, optional name, timestamp, event kind (point /
duration-start / duration-end), and a list of key-value attributes." -/
structure Event where
  id : Nat
  name : Option String
  timestamp : Nat
  eventType : EventType
  data : List (String × String)
deriving DecidableEq, Repr

/-- `InsertOnlyRingBuffer<T>` from `debug_store/debug_store_storage.rs`:
`storage: Vec<Option<T>>`, `capacity: usize`, `head: usize`. -/
structure InsertOnlyRingBuffer (α : Type) where
  storage : List (Option α)
  capacity : Nat
  head : Nat
deriving DecidableEq, Repr

namespace InsertOnlyRingBuffer

/-- `InsertOnlyRingBuffer::new(capacity)`:
`Self { storage: vec![None; capacity], capacity, head: 0 }`. -/
def new (capacity : Nat) : InsertOnlyRingBuffer α :=
  { storage := List.replicate capacity none, capacity := capacity, head := 0 }

/-- `InsertOnlyRingBuffer::insert`: if `capacity == 0` return; otherwise
`storage[head] = Some(value); head = (head + 1) % capacity`. -/
def insert (b : InsertOnlyRingBuffer α) (value : α) : InsertOnlyRingBuffer α :=
  if b.capacity = 0 then b
  else
    { b with
      storage := b.storage.set b.head (some value)
      head := (b.head + 1) % b.capacity }

/-- `InsertOnlyRingBuffer::is_full`:
`capacity == 0 || storage[capacity - 1].is_some()`. -/
def is_full (b : InsertOnlyRingBuffer α) : Bool :=
  b.capacity == 0 || (b.storage.getD (b.capacity - 1) none).isSome

/-- `InsertOnlyRingBuffer::len`: `if is_full() { capacity } else { head }`. -/
def len (b : InsertOnlyRingBuffer α) : Nat :=
  if b.is_full then b.capacity else b.head

/-- `InsertOnlyRingBuffer::to_vec_ordered`:
`storage.iter().cycle().skip(head).take(capacity).filter_map(...)`.
Element `i` of the cycled-then-skipped stream is
`storage[(head + i) % storage.len()]`; on an empty `storage` the cycled
iterator is empty, so the result is empty. -/
def to_vec_ordered (b : InsertOnlyRingBuffer α) : List α :=
  if b.storage.length = 0 then []
  else
    ((List.range b.capacity).map
      (fun i => b.storage.getD ((b.head + i) % b.storage.length) none)).filterMap id

end InsertOnlyRingBuffer

/-- `DebugStoreStorageError` from `debug_store/debug_store_storage.rs`. -/
inductive DebugStoreStorageError where
  | LockTimeout
deriving DecidableEq, Repr

/-- `DebugStoreStorage<T>` from `debug_store/debug_store_storage.rs`:
a ring buffer behind `Mutex::try_lock_for(max_delay_ms)` plus an atomic
count of failed acquisitions. -/
structure DebugStoreStorage (α : Type) where
  buffer : InsertOnlyRingBuffer α
  max_delay_ms : Nat
  lock_failures : Nat
deriving DecidableEq, Repr

namespace DebugStoreStorage

/-- `DebugStoreStorage::new(size, max_delay_ms)`. -/
def new (size : Nat) (max_delay_ms : Nat) : DebugStoreStorage α :=
  { buffer := InsertOnlyRingBuffer.new size
    max_delay_ms := max_delay_ms
    lock_failures := 0 }

/-- `DebugStoreStorage::insert`: on a successful `try_lock_for` it delegates
to the ring buffer's `insert` and returns `Ok(())`; on timeout it does
`lock_failures.fetch_add(1)` and returns `Err(LockTimeout)`. -/
def insert (s : DebugStoreStorage α) (value : α) (acquired : Bool) :
    DebugStoreStorage α × Except DebugStoreStorageError Unit :=
  if acquired then
    ({ s with buffer := s.buffer.insert value }, Except.ok ())
  else
    ({ s with lock_failures := (s.lock_failures + 1) % U64 },
      Except.error DebugStoreStorageError.LockTimeout)

/-- `DebugStoreStorage::fold`: on a successful `try_lock_for` it copies the
buffer with `to_vec_ordered` (releasing the lock) and then folds the
provided function over the copy; on timeout it returns `None`.  Neither
branch mutates the buffer or the counter, so the post-state is `s` itself. -/
def fold {U : Type} (s : DebugStoreStorage α) (init : U) (func : U → α → U)
    (acquired : Bool) : DebugStoreStorage α × Option U :=
  if acquired then
    (s, some (s.buffer.to_vec_ordered.foldl func init))
  else
    (s, none)

/-- `DebugStoreStorage::get_lock_misses`: lock-free load of `lock_failures`. -/
def get_lock_misses (s : DebugStoreStorage α) : Nat :=
  s.lock_failures

/-- `DebugStoreStorage::len`: on a successful `try_lock_for` it returns the
ring buffer's `len`; on timeout it returns `Err(LockTimeout)`.  Neither
branch mutates anything. -/
def len (s : DebugStoreStorage α) (acquired : Bool) :
    DebugStoreStorage α × Except DebugStoreStorageError Nat :=
  if acquired then (s, Except.ok s.buffer.len)
  else (s, Except.error DebugStoreStorageError.LockTimeout)

end DebugStoreStorage

/-- One call against a `DebugStoreStorage`, tagged with whether its bounded
lock acquisition succeeded. -/
inductive StorageOp (α : Type) where
  | insertOp (value : α) (acquired : Bool)
  | foldOp (acquired : Bool)
  | lenOp (acquired : Bool)

/-- State left behind by one `StorageOp` (`fold` and `len` take `&self` and
leave the state unchanged whatever their lock outcome). -/
def stepOp (s : DebugStoreStorage α) : StorageOp α → DebugStoreStorage α
  | StorageOp.insertOp v acq => (s.insert v acq).1
  | StorageOp.foldOp acq => (s.fold 0 (fun a _ => a) acq).1
  | StorageOp.lenOp acq => (s.len acq).1

/-- State after a sequence of calls. -/
def runOps (s : DebugStoreStorage α) (ops : List (StorageOp α)) : DebugStoreStorage α :=
  ops.foldl stepOp s

/-- `DebugStore` from `debug_store/core.rs` (the mutex-based façade):
two atomic `u64` counters plus the guarded storage of events. -/
structure DebugStore where
  id_generator : Nat
  total_entries : Nat
  event_store : DebugStoreStorage Event
deriving DecidableEq, Repr

namespace DebugStore

/-- `DebugStore::DEFAULT_EVENT_LIMIT`. -/
def DEFAULT_EVENT_LIMIT : Nat := 16

/-- `DebugStore::NON_CLOSABLE_ID`. -/
def NON_CLOSABLE_ID : Nat := 0

/-- `DebugStore::MAX_DELAY_MS`. -/
def MAX_DELAY_MS : Nat := 20

/-- `DebugStore::ENCODE_VERSION`. -/
def ENCODE_VERSION : Nat := 1

/-- `DebugStore::new(event_limit, max_delay_ms)`. -/
def new (event_limit : Nat) (max_delay_ms : Nat) : DebugStore :=
  { id_generator := 1
    total_entries := 0
    event_store := DebugStoreStorage.new event_limit max_delay_ms }

/-- `DebugStore::generate_id`: `fetch_add(1)` returning the previous value,
redrawn while the drawn value equals `NON_CLOSABLE_ID`.  In the sequential
embedding the redraw loop runs at most once: a draw of `0` leaves the
counter at `1`, so the very next draw is `1`.  The `fetch_add` wraps at
`2 ^ 64`. -/
def generate_id (s : DebugStore) : Nat × DebugStore :=
  if s.id_generator = NON_CLOSABLE_ID then
    ((s.id_generator + 1) % U64,
      { s with id_generator := ((s.id_generator + 1) % U64 + 1) % U64 })
  else
    (s.id_generator, { s with id_generator := (s.id_generator + 1) % U64 })

/-- `DebugStore::begin`: generates an id, inserts a `DurationStart` event
carrying the name and attributes; if the insert returned `Ok` it increments
`total_entries` and returns the id, otherwise it returns
`NON_CLOSABLE_ID`. -/
def begin (s : DebugStore) (name : String) (data : List (String × String))
    (now : Nat) (acquired : Bool) : Nat × DebugStore :=
  let p := s.generate_id
  let q := p.2.event_store.insert
    { id := p.1, name := some name, timestamp := now
      eventType := EventType.DurationStart, data := data } acquired
  match q.2 with
  | Except.ok _ =>
      (p.1, { p.2 with
                event_store := q.1
                total_entries := (p.2.total_entries + 1) % U64 })
  | Except.error _ =>
      (NON_CLOSABLE_ID, { p.2 with event_store := q.1 })

/-- `DebugStore::record`: inserts a `Point` event with `NON_CLOSABLE_ID`,
discarding the insert's result. -/
def record (s : DebugStore) (name : String) (data : List (String × String))
    (now : Nat) (acquired : Bool) : DebugStore :=
  { s with
    event_store :=
      (s.event_store.insert
        { id := NON_CLOSABLE_ID, name := some name, timestamp := now
          eventType := EventType.Point, data := data } acquired).1 }

/-- `DebugStore::end` (named `endEvent` here because `end` is a Lean
keyword): if `id != NON_CLOSABLE_ID`, inserts a `DurationEnd` event with
that id and `name = None`, discarding the insert's result; otherwise does
nothing. -/
def endEvent (s : DebugStore) (id : Nat) (data : List (String × String))
    (now : Nat) (acquired : Bool) : DebugStore :=
  if id ≠ NON_CLOSABLE_ID then
    { s with
      event_store :=
        (s.event_store.insert
          { id := id, name := none, timestamp := now
            eventType := EventType.DurationEnd, data := data } acquired).1 }
  else
    s

/-- `impl fmt::Display for DebugStore` in `debug_store/core.rs`.
`eventStr` stands for the external `Display` of `DebugStoreEvent` (that
impl is outside the provided sources); `uptime_now` for the
`SystemTime::now()` reading; `len_acquired` / `fold_acquired` for the two
lock-acquisition outcomes.  Writes
`"{ENCODE_VERSION},{total_entries},{length},{lock_misses},{uptime_now}::"`
with `length = -1` on a `len` timeout, then the `"||"`-joined events, or
`"-"` if the fold timed out. -/
def display (s : DebugStore) (eventStr : Event → String) (uptime_now : Nat)
    (len_acquired : Bool) (fold_acquired : Bool) : String :=
  let total_entries := s.total_entries
  let lock_misses := s.event_store.get_lock_misses
  let length : Int :=
    match (s.event_store.len len_acquired).2 with
    | Except.ok l => (l : Int)
    | Except.error _ => -1
  let header :=
    toString ENCODE_VERSION ++ "," ++ toString total_entries ++ "," ++
      toString length ++ "," ++ toString lock_misses ++ "," ++
      toString uptime_now ++ "::"
  match (s.event_store.fold ""
      (fun acc event =>
        (if acc.isEmpty then acc else acc ++ "||") ++ eventStr event)
      fold_acquired).2 with
  | some events_string => header ++ events_string
  | none => header ++ "-"

end DebugStore

/-- The external `crossbeam_queue::ArrayQueue<T>` used by `storage.rs`,
modelled by its documented semantics: a bounded FIFO queue (front of the
list = oldest element) of fixed capacity. -/
structure ArrayQueue (α : Type) where
  items : List α
  cap : Nat
deriving DecidableEq, Repr

namespace ArrayQueue

/-- `ArrayQueue::new(cap)`: an empty queue of capacity `cap`. -/
def new (cap : Nat) : ArrayQueue α :=
  { items := [], cap := cap }

/-- `ArrayQueue::force_push`: push to the back; when the queue is full,
displace the oldest element to make room (documented overwrite-when-full
behaviour).  A zero-capacity queue stays empty. -/
def force_push (q : ArrayQueue α) (value : α) : ArrayQueue α :=
  if q.items.length < q.cap then { q with items := q.items ++ [value] }
  else if q.cap = 0 then q
  else { q with items := q.items.tail ++ [value] }

/-- `ArrayQueue::pop`: remove and return the oldest element, if any. -/
def pop (q : ArrayQueue α) : Option α × ArrayQueue α :=
  match q.items with
  | [] => (none, q)
  | v :: rest => (some v, { q with items := rest })

end ArrayQueue

/-- The `while let Some(value) = pop() { acc = func(acc, &value) }` loop of
`Storage::fold` in `storage.rs`, on the queue's item list: pops front
elements one at a time, folding them into the accumulator, until the queue
is empty.  Returns the final accumulator and the leftover items. -/
def drainLoop {α U : Type} (func : U → α → U) : List α → U → U × List α
  | [], acc => (acc, [])
  | v :: rest, acc => drainLoop func rest (func acc v)

/-- `Storage<T, N>` from `storage.rs`: a wrapper around
`crossbeam_queue::ArrayQueue::new(N)`. -/
structure Storage (α : Type) (N : Nat) where
  insertion_buffer : ArrayQueue α
deriving DecidableEq, Repr

namespace Storage

/-- `Storage::new()`: `ArrayQueue::new(N)`. -/
def new {α : Type} (N : Nat) : Storage α N :=
  { insertion_buffer := ArrayQueue.new N }

/-- `Storage::insert`: `insertion_buffer.force_push(value)`. -/
def insert (s : Storage α N) (value : α) : Storage α N :=
  { insertion_buffer := s.insertion_buffer.force_push value }

/-- `Storage::fold`: the destructive pop-until-empty drain loop.  Returns
the fold result together with the post-call storage. -/
def fold {U : Type} (s : Storage α N) (init : U) (func : U → α → U) :
    U × Storage α N :=
  let p := drainLoop func s.insertion_buffer.items init
  (p.1, { insertion_buffer := { s.insertion_buffer with items := p.2 } })

/-- `Storage::len`: `insertion_buffer.len()`, the current element count. -/
def len (s : Storage α N) : Nat :=
  s.insertion_buffer.items.length

end Storage

namespace QueueCore

/-- `DebugStore` from `core.rs` (the queue-based façade): one atomic id
counter plus a `Storage<Event, DEFAULT_EVENT_LIMIT>`. -/
structure DebugStore where
  id_generator : Nat
  event_store : Storage Event 16
deriving DecidableEq, Repr

namespace DebugStore

/-- `DebugStore::DEFAULT_EVENT_LIMIT` in `core.rs`. -/
def DEFAULT_EVENT_LIMIT : Nat := 16

/-- `DebugStore::NON_CLOSABLE_ID` in `core.rs`. -/
def NON_CLOSABLE_ID : Nat := 0

/-- `DebugStore::ENCODE_VERSION` in `core.rs`. -/
def ENCODE_VERSION : Nat := 1

/-- `DebugStore::new()` in `core.rs`. -/
def new : DebugStore :=
  { id_generator := 1, event_store := Storage.new 16 }

/-- `DebugStore::generate_id` in `core.rs`: identical to the mutex-based
variant's generator. -/
def generate_id (s : DebugStore) : Nat × DebugStore :=
  if s.id_generator = NON_CLOSABLE_ID then
    ((s.id_generator + 1) % U64,
      { s with id_generator := ((s.id_generator + 1) % U64 + 1) % U64 })
  else
    (s.id_generator, { s with id_generator := (s.id_generator + 1) % U64 })

/-- `DebugStore::begin` in `core.rs`: generates an id, inserts a
`DurationStart` event (the queue insert cannot fail), and returns the id
unconditionally. -/
def begin (s : DebugStore) (name : String) (data : List (String × String))
    (now : Nat) : Nat × DebugStore :=
  let p := s.generate_id
  (p.1,
    { p.2 with
      event_store := p.2.event_store.insert
        { id := p.1, name := some name, timestamp := now
          eventType := EventType.DurationStart, data := data } })

/-- `DebugStore::record` in `core.rs`. -/
def record (s : DebugStore) (name : String) (data : List (String × String))
    (now : Nat) : DebugStore :=
  { s with
    event_store := s.event_store.insert
      { id := NON_CLOSABLE_ID, name := some name, timestamp := now
        eventType := EventType.Point, data := data } }

/-- `DebugStore::end` in `core.rs` (named `endEvent` here because `end` is
a Lean keyword): if `id != NON_CLOSABLE_ID`, inserts a `DurationEnd` event
with that id and `name = None`; otherwise does nothing. -/
def endEvent (s : DebugStore) (id : Nat) (data : List (String × String))
    (now : Nat) : DebugStore :=
  if id ≠ NON_CLOSABLE_ID then
    { s with
      event_store := s.event_store.insert
        { id := id, name := none, timestamp := now
          eventType := EventType.DurationEnd, data := data } }
  else
    s

/-- `impl fmt::Display for DebugStore` in `core.rs`: writes
`"{ENCODE_VERSION},{len},{uptime_now}::"` followed by the `"||"`-joined
events.  The fold it uses drains the queue, so the post-call store is
returned alongside the string. -/
def display (s : DebugStore) (eventStr : Event → String) (uptime_now : Nat) :
    String × DebugStore :=
  let header :=
    toString ENCODE_VERSION ++ "," ++ toString s.event_store.len ++ "," ++
      toString uptime_now ++ "::"
  let p := s.event_store.fold ""
    (fun acc event =>
      (if acc.isEmpty then acc else acc ++ "||") ++ eventStr event)
  (header ++ p.1, { s with event_store := p.2 })

end DebugStore

end QueueCore

section RingBufferLemmas

variable {α : Type}

lemma filterMap_id_replicate_none (k : Nat) :
    (List.replicate k (none : Option α)).filterMap id = [] := by
  induction k with
  | zero => rfl
  | succ n ih => simp [List.replicate_succ, ih]

lemma filterMap_id_map_some (xs : List α) :
    (xs.map some).filterMap id = xs := by
  induction xs with
  | nil => rfl
  | cons x xs ih => simp [List.filterMap_cons, ih]

lemma rotate_set_self {β : Type} (l : List β) (i : Nat) (x : β) (h : i < l.length) :
    (l.set i x).rotate i = x :: (l.rotate i).drop 1 := by
  have hlpos : 0 < l.length := Nat.lt_of_le_of_lt (Nat.zero_le i) h
  apply List.ext_getElem
  · simp
    omega
  · intro k hk1 hk2
    have hkl : k < l.length := by simpa using hk1
    rw [List.getElem_rotate]
    simp only [List.length_set]
    rcases k with _ | k
    · have hi : (0 + i) % l.length = i := by
        simp [Nat.mod_eq_of_lt h]
      simp only [hi]
      simp
    · have hidx : (k + 1 + i) % l.length ≠ i := by
        rcases Nat.lt_or_ge (k + 1 + i) l.length with hlt | hge
        · rw [Nat.mod_eq_of_lt hlt]
          omega
        · have h2 : k + 1 + i - l.length < l.length := by omega
          rw [Nat.mod_eq_sub_mod hge, Nat.mod_eq_of_lt h2]
          omega
      rw [List.getElem_set_ne (Ne.symm hidx)]
      simp only [List.getElem_cons_succ, List.getElem_drop, List.getElem_rotate]
      simp [Nat.add_comm]

/-- Abstraction invariant for `InsertOnlyRingBuffer`: `xs` is the logical
content (oldest inserted first).  The storage read cyclically starting at
`head` consists of the empty slots followed by the content; before the
first wrap `head` equals the number of inserts so far. -/
def RingInv (b : InsertOnlyRingBuffer α) (xs : List α) : Prop :=
  b.storage.length = b.capacity ∧
  (b.head < b.capacity ∨ (b.capacity = 0 ∧ b.head = 0)) ∧
  b.storage.rotate b.head
    = List.replicate (b.capacity - xs.length) none ++ xs.map some ∧
  xs.length ≤ b.capacity ∧
  (xs.length < b.capacity → b.head = xs.length)

/-- The spec-level evolution of the logical content under one `insert`:
append, dropping the oldest element when the buffer is at capacity. -/
def nextContent (c : Nat) (xs : List α) (v : α) : List α :=
  if c = 0 then xs else if xs.length < c then xs ++ [v] else xs.tail ++ [v]

lemma ringInv_new (c : Nat) : RingInv (InsertOnlyRingBuffer.new c : InsertOnlyRingBuffer α) [] := by
  refine ⟨by simp [InsertOnlyRingBuffer.new], ?_, ?_, by simp, fun _ => rfl⟩
  · rcases Nat.eq_zero_or_pos c with h | h
    · exact Or.inr ⟨h, rfl⟩
    · exact Or.inl h
  · simp [InsertOnlyRingBuffer.new]

lemma ringInv_insert {b : InsertOnlyRingBuffer α} {xs : List α}
    (hinv : RingInv b xs) (v : α) :
    RingInv (b.insert v) (nextContent b.capacity xs v) := by
  obtain ⟨hlen, hhead, hrot, hsize, hcount⟩ := hinv
  by_cases hc : b.capacity = 0
  · unfold InsertOnlyRingBuffer.insert nextContent
    rw [if_pos hc, if_pos hc]
    exact ⟨hlen, hhead, hrot, hsize, hcount⟩
  · have hcpos : 0 < b.capacity := Nat.pos_of_ne_zero hc
    have hhead' : b.head < b.capacity := by
      rcases hhead with h | ⟨h0, _⟩
      · exact h
      · exact absurd h0 hc
    have hseth : b.head < b.storage.length := by rw [hlen]; exact hhead'
    have hrotstep :
        (b.storage.set b.head (some v)).rotate ((b.head + 1) % b.capacity)
          = ((b.storage.rotate b.head).drop 1) ++ [some v] := by
      have hlen' : (b.storage.set b.head (some v)).length = b.capacity := by
        simpa using hlen
      conv_lhs => rw [← hlen', List.rotate_mod]
      rw [← List.rotate_rotate, rotate_set_self _ _ _ hseth]
      have : (some v :: (b.storage.rotate b.head).drop 1).rotate (0 + 1)
          = (((b.storage.rotate b.head).drop 1) ++ [some v]).rotate 0 :=
        List.rotate_cons_succ _ _ 0
      simpa using this
    unfold InsertOnlyRingBuffer.insert nextContent
    rw [if_neg hc, if_neg hc]
    by_cases hm : xs.length < b.capacity
    · rw [if_pos hm]
      refine ⟨by simpa using hlen, ?_, ?_, ?_, ?_⟩
      · exact Or.inl (Nat.mod_lt _ hcpos)
      · rw [hrotstep, hrot]
        have hrep : b.capacity - xs.length = (b.capacity - (xs.length + 1)) + 1 := by
          omega
        rw [hrep, List.replicate_succ]
        simp
      · simpa using Nat.succ_le_of_lt hm
      · intro hlt
        have hh : b.head = xs.length := hcount hm
        have hlt' : xs.length + 1 < b.capacity := by simpa using hlt
        simp [hh, Nat.mod_eq_of_lt hlt']
    · have hfull : xs.length = b.capacity := Nat.le_antisymm hsize (Nat.le_of_not_lt hm)
      rw [if_neg hm]
      have hxs : xs ≠ [] := by
        intro h
        rw [h] at hfull
        exact hc hfull.symm
      refine ⟨by simpa using hlen, ?_, ?_, ?_, ?_⟩
      · exact Or.inl (Nat.mod_lt _ hcpos)
      · rw [hrotstep, hrot, hfull, Nat.sub_self, List.replicate]
        rw [List.nil_append]
        have hdrop : (xs.map some).drop 1 = (xs.drop 1).map some :=
          (List.map_drop ..).symm
        have hlen1 : (xs.tail ++ [v]).length = b.capacity := by
          have : 1 ≤ xs.length := by
            cases xs with
            | nil => exact absurd rfl hxs
            | cons a l => simp
          simp [List.length_tail, hfull]
          omega
        rw [hlen1, Nat.sub_self, List.replicate, List.nil_append]
        rw [List.map_append, ← List.drop_one, hdrop, List.drop_one]
        simp
      · have : 1 ≤ xs.length := by
          cases xs with
          | nil => exact absurd rfl hxs
          | cons a l => simp
        simp [List.length_tail, hfull]
        omega
      · intro hlt
        exfalso
        have h1 : 1 ≤ xs.length := by
          cases xs with
          | nil => exact absurd rfl hxs
          | cons a l => simp
        simp only [List.length_append, List.length_tail, List.length_cons,
          List.length_nil] at hlt
        omega

lemma to_vec_ordered_eq_rotate {b : InsertOnlyRingBuffer α}
    (h : b.storage.length = b.capacity) :
    b.to_vec_ordered = (b.storage.rotate b.head).filterMap id := by
  unfold InsertOnlyRingBuffer.to_vec_ordered
  by_cases hc : b.storage.length = 0
  · rw [if_pos hc, List.length_eq_zero.mp hc]
    simp
  · rw [if_neg hc]
    have hpos : 0 < b.storage.length := Nat.pos_of_ne_zero hc
    congr 1
    apply List.ext_getElem
    · simp [h]
    · intro i h1 h2
      have hi : i < b.capacity := by simpa using h1
      simp only [List.getElem_map, List.getElem_range]
      rw [List.getElem_rotate]
      rw [List.getD_eq_getElem _ _ (Nat.mod_lt _ hpos)]
      congr 1
      rw [Nat.add_comm]

lemma ringInv_to_vec_ordered {b : InsertOnlyRingBuffer α} {xs : List α}
    (hinv : RingInv b xs) : b.to_vec_ordered = xs := by
  obtain ⟨hlen, _, hrot, _, _⟩ := hinv
  rw [to_vec_ordered_eq_rotate hlen, hrot, List.filterMap_append,
    filterMap_id_replicate_none, filterMap_id_map_some, List.nil_append]

lemma ringInv_len {b : InsertOnlyRingBuffer α} {xs : List α}
    (hinv : RingInv b xs) : b.len = xs.length := by
  obtain ⟨hlen, hhead, hrot, hsize, hcount⟩ := hinv
  by_cases hc : b.capacity = 0
  · have hx : xs.length = 0 := Nat.le_antisymm (hc ▸ hsize) (Nat.zero_le _)
    unfold InsertOnlyRingBuffer.len InsertOnlyRingBuffer.is_full
    rw [hx, hc]
    simp
  · have hcpos : 0 < b.capacity := Nat.pos_of_ne_zero hc
    have hhead' : b.head < b.capacity := by
      rcases hhead with h | ⟨h0, _⟩
      · exact h
      · exact absurd h0 hc
    by_cases hm : xs.length < b.capacity
    · -- not yet wrapped: the last slot is still empty
      have hhm : b.head = xs.length := hcount hm
      have hlast : b.storage.getD (b.capacity - 1) none = none := by
        have hmlt : b.capacity - 1 - xs.length < b.storage.length := by
          rw [hlen]
          omega
        have h1 := @List.getElem?_rotate (Option α) b.storage b.head (b.capacity - 1 - xs.length) hmlt
        have hidx : (b.capacity - 1 - xs.length + b.head) % b.storage.length
            = b.capacity - 1 := by
          rw [hlen, hhm]
          have he : b.capacity - 1 - xs.length + xs.length = b.capacity - 1 := by
            omega
          rw [he]
          exact Nat.mod_eq_of_lt (by omega)
        rw [hidx, hrot] at h1
        have h2 : (List.replicate (b.capacity - xs.length) (none : Option α)
            ++ List.map some xs)[b.capacity - 1 - xs.length]? = some none := by
          rw [List.getElem?_append_left (by simp; omega)]
          exact List.getElem?_replicate_of_lt (by omega)
        rw [h2] at h1
        simp [← h1]
      unfold InsertOnlyRingBuffer.len InsertOnlyRingBuffer.is_full
      rw [hlast]
      simp [hc, hhm]
    · -- wrapped: every slot is occupied
      have hfull : xs.length = b.capacity := Nat.le_antisymm hsize (Nat.le_of_not_lt hm)
      have hmem : ∀ y ∈ b.storage, y.isSome := by
        intro y hy
        have : y ∈ b.storage.rotate b.head := List.mem_rotate.mpr hy
        rw [hrot, hfull, Nat.sub_self] at this
        simp at this
        obtain ⟨a, _, ha⟩ := this
        rw [← ha]
        rfl
      have hlast : (b.storage.getD (b.capacity - 1) none).isSome := by
        have hblt : b.capacity - 1 < b.storage.length := by rw [hlen]; omega
        rw [List.getD_eq_getElem _ _ hblt]
        exact hmem _ (List.getElem_mem hblt)
      unfold InsertOnlyRingBuffer.len InsertOnlyRingBuffer.is_full
      rw [hlast]
      simp [hfull]

/-- All inserts of a list, oldest first (`foldl` of `insert`). -/
def insertList (b : InsertOnlyRingBuffer α) (xs : List α) : InsertOnlyRingBuffer α :=
  xs.foldl InsertOnlyRingBuffer.insert b

lemma capacity_insert (b : InsertOnlyRingBuffer α) (v : α) :
    (b.insert v).capacity = b.capacity := by
  unfold InsertOnlyRingBuffer.insert
  by_cases hc : b.capacity = 0
  · rw [if_pos hc]
  · rw [if_neg hc]

lemma ringInv_insertList {b : InsertOnlyRingBuffer α} {ys : List α}
    (hinv : RingInv b ys) (xs : List α) :
    RingInv (insertList b xs) (xs.foldl (nextContent b.capacity) ys) := by
  induction xs generalizing b ys with
  | nil => exact hinv
  | cons x xs ih =>
    have h1 := ringInv_insert hinv x
    have h2 := ih h1
    have hcap : (b.insert x).capacity = b.capacity := capacity_insert b x
    rw [hcap] at h2
    exact h2

lemma foldl_nextContent_drop (c : Nat) (xs ys : List α)
    (hlen : ys.length ≤ c) (hzero : c = 0 → ys = []) :
    xs.foldl (nextContent c) ys = (ys ++ xs).drop ((ys ++ xs).length - c) := by
  induction xs generalizing ys with
  | nil =>
    have : ys.length - c = 0 := Nat.sub_eq_zero_of_le hlen
    simp [this]
  | cons x xs ih =>
    by_cases hc : c = 0
    · have hys : ys = [] := hzero hc
      subst hys
      subst hc
      have h1 : xs.foldl (nextContent 0) (nextContent 0 [] x) = [] := by
        have : nextContent 0 ([] : List α) x = [] := by simp [nextContent]
        rw [this]
        have h2 := ih ([] : List α) (by simp) (fun _ => rfl)
        simpa using h2
      simp only [List.foldl_cons, h1]
      simp
    · by_cases hm : ys.length < c
      · have hstep : nextContent c ys x = ys ++ [x] := by
          simp [nextContent, hc, hm]
        simp only [List.foldl_cons, hstep]
        rw [ih (ys ++ [x]) (by simpa using Nat.succ_le_of_lt hm)
          (fun h => absurd h hc)]
        simp
      · have hys : ys.length = c := Nat.le_antisymm hlen (Nat.le_of_not_lt hm)
        have hne : ys ≠ [] := by
          intro h
          rw [h] at hys
          exact hc hys.symm
        have hstep : nextContent c ys x = ys.tail ++ [x] := by
          simp [nextContent, hc, hm]
        simp only [List.foldl_cons, hstep]
        rw [ih (ys.tail ++ [x])
          (by simp [List.length_tail]; omega)
          (fun h => absurd h hc)]
        cases ys with
        | nil => exact absurd rfl hne
        | cons y ytl =>
          simp only [List.tail_cons]
          have hys' : ytl.length + 1 = c := by simpa using hys
          have hL : (ytl ++ [x]) ++ xs = ytl ++ x :: xs := by simp
          rw [hL]
          have hd1 : (ytl ++ x :: xs).length - c = xs.length := by
            simp only [List.length_append, List.length_cons]
            omega
          have hd2 : ((y :: ytl) ++ x :: xs).length - c = xs.length + 1 := by
            simp only [List.length_append, List.length_cons]
            omega
          rw [hd1, hd2]
          have hcons : (y :: ytl) ++ x :: xs = y :: (ytl ++ x :: xs) := by simp
          rw [hcons, List.drop_succ_cons]

lemma ringInv_reach (c : Nat) (xs : List α) :
    RingInv (insertList (InsertOnlyRingBuffer.new c) xs)
      (xs.drop (xs.length - c)) := by
  have h := ringInv_insertList (ringInv_new c : RingInv (InsertOnlyRingBuffer.new c : InsertOnlyRingBuffer α) []) xs
  have hcap : (InsertOnlyRingBuffer.new c : InsertOnlyRingBuffer α).capacity = c := rfl
  rw [hcap] at h
  have hfold := foldl_nextContent_drop c xs ([] : List α) (by simp) (fun _ => rfl)
  simp only [List.nil_append] at hfold
  rw [hfold] at h
  exact h

lemma insertList_to_vec_ordered (c : Nat) (xs : List α) :
    (insertList (InsertOnlyRingBuffer.new c) xs).to_vec_ordered
      = xs.drop (xs.length - c) :=
  ringInv_to_vec_ordered (ringInv_reach c xs)

lemma insertList_len (c : Nat) (xs : List α) :
    (insertList (InsertOnlyRingBuffer.new c) xs).len
      = xs.length - (xs.length - c) := by
  have h := ringInv_len (ringInv_reach c xs)
  rw [h, List.length_drop]

lemma capacity_insertList (b : InsertOnlyRingBuffer α) (xs : List α) :
    (insertList b xs).capacity = b.capacity := by
  induction xs generalizing b with
  | nil => rfl
  | cons x xs ih =>
    rw [insertList, List.foldl_cons, ← insertList, ih, capacity_insert]

end RingBufferLemmas

/-- C4: inserting `c + k` events (`c ≥ 1`, `k ≥ 1`) into a fresh ring buffer
of capacity `c` leaves exactly the last `c` inserted events in insertion
order as the result of `to_vec_ordered` (the first `k` are gone). -/
theorem C4_ring_overwrite {α : Type} (c k : Nat) (xs : List α)
    (hc : 1 ≤ c) (hk : 1 ≤ k) (hlen : xs.length = c + k) :
    (insertList (InsertOnlyRingBuffer.new c) xs).to_vec_ordered = xs.drop k := by
  rw [insertList_to_vec_ordered, hlen]
  congr 1
  omega

/-- Witness for C4 at the spec's scenario: capacity 3, inserts `A,B,C,D`
(as `0,1,2,3`) give ordered contents `[B,C,D]` (`[1,2,3]`). -/
theorem C4_ring_overwrite_witness :
    ([0, 1, 2, 3] : List Nat).length = 3 + 1 ∧
      (insertList (InsertOnlyRingBuffer.new 3) [0, 1, 2, 3]).to_vec_ordered
        = [0, 1, 2, 3].drop 1 ∧
      ([0, 1, 2, 3] : List Nat).drop 1 = [1, 2, 3] :=
  ⟨by decide,
    C4_ring_overwrite 3 1 [0, 1, 2, 3] (by decide) (by decide) (by decide),
    by decide⟩

/-- C8: on a ring buffer constructed with capacity 0, `insert` is a total
no-op (in the embedding all operations are total functions, so no panic is
possible) and `len` returns 0 after any sequence of inserts. -/
theorem C8_zero_capacity {α : Type} (v : α) (xs : List α) :
    (InsertOnlyRingBuffer.new 0 : InsertOnlyRingBuffer α).insert v
        = InsertOnlyRingBuffer.new 0 ∧
      (insertList (InsertOnlyRingBuffer.new 0) xs).len = 0 := by
  constructor
  · rfl
  · rw [insertList_len]
    omega

/-- C9: `len` returns `capacity` when `is_full` and `head` otherwise;
`is_full` holds iff `capacity = 0` or the slot at index `capacity - 1` is
occupied; and once the buffer has wrapped (at least `capacity` inserts,
`capacity > 0`), `len` always reports `capacity`. -/
theorem C9_len_once_wrapped {α : Type} (b : InsertOnlyRingBuffer α)
    (c : Nat) (xs : List α) (hc : 0 < c) (hwrap : c ≤ xs.length) :
    b.len = (if b.is_full then b.capacity else b.head) ∧
      (b.is_full = true ↔
        b.capacity = 0 ∨ (b.storage.getD (b.capacity - 1) none).isSome = true) ∧
      (insertList (InsertOnlyRingBuffer.new c) xs).len = c := by
  refine ⟨rfl, ?_, ?_⟩
  · unfold InsertOnlyRingBuffer.is_full
    simp
  · rw [insertList_len]
    omega

/-- Witness for C9: a buffer of capacity 2 that has seen 3 inserts reports
`len = 2`. -/
theorem C9_len_once_wrapped_witness :
    0 < 2 ∧ 2 ≤ ([5, 6, 7] : List Nat).length ∧
      (insertList (InsertOnlyRingBuffer.new 2) [5, 6, 7]).len = 2 :=
  ⟨by decide, by decide,
    (C9_len_once_wrapped (InsertOnlyRingBuffer.new 2) 2 [5, 6, 7]
      (by decide) (by decide)).2.2⟩

/-- C10: in every state reachable from construction with capacity `c > 0`
by any sequence of inserts, `head` stays strictly below `c` (so `insert`'s
slot indexing is in bounds), and `to_vec_ordered` returns exactly `len`
elements. -/
theorem C10_reachable_invariant {α : Type} (c : Nat) (xs : List α) (hc : 0 < c) :
    (insertList (InsertOnlyRingBuffer.new c) xs).head < c ∧
      (insertList (InsertOnlyRingBuffer.new c) xs).to_vec_ordered.length
        = (insertList (InsertOnlyRingBuffer.new c) xs).len := by
  obtain ⟨hlen, hhead, -, -, -⟩ := ringInv_reach c (xs : List α)
  have hcap : (insertList (InsertOnlyRingBuffer.new c) (xs : List α)).capacity = c :=
    capacity_insertList _ _
  constructor
  · rcases hhead with h | ⟨h0, -⟩
    · rw [hcap] at h
      exact h
    · rw [hcap] at h0
      omega
  · rw [insertList_to_vec_ordered, insertList_len, List.length_drop]

/-- Witness for C10 at capacity 2 after three inserts. -/
theorem C10_reachable_invariant_witness :
    (0 : Nat) < 2 ∧
      (insertList (InsertOnlyRingBuffer.new 2) [5, 6, 7]).head < 2 ∧
      (insertList (InsertOnlyRingBuffer.new 2) [5, 6, 7]).to_vec_ordered.length
        = (insertList (InsertOnlyRingBuffer.new 2) [5, 6, 7]).len :=
  ⟨by decide, C10_reachable_invariant 2 [5, 6, 7] (by decide)⟩

section StorageLemmas

variable {α : Type}

lemma get_lock_misses_stepOp (s : DebugStoreStorage α) (op : StorageOp α) :
    (stepOp s op).get_lock_misses = s.get_lock_misses ∨
      (stepOp s op).get_lock_misses = (s.get_lock_misses + 1) % U64 := by
  rcases op with ⟨v, acq⟩ | acq | acq <;> rcases acq with _ | _
  · exact Or.inr rfl
  · exact Or.inl rfl
  · exact Or.inl rfl
  · exact Or.inl rfl
  · exact Or.inl rfl
  · exact Or.inl rfl

lemma lock_misses_runOps (s : DebugStoreStorage α) (ops : List (StorageOp α))
    (h : s.get_lock_misses + ops.length < U64) :
    s.get_lock_misses ≤ (runOps s ops).get_lock_misses := by
  induction ops generalizing s with
  | nil => exact Nat.le_refl _
  | cons op ops ih =>
    simp only [List.length_cons] at h
    have hst : (stepOp s op).get_lock_misses = s.get_lock_misses ∨
        (stepOp s op).get_lock_misses = s.get_lock_misses + 1 := by
      rcases get_lock_misses_stepOp s op with h1 | h1
      · exact Or.inl h1
      · right
        rw [h1]
        exact Nat.mod_eq_of_lt (by omega)
    have hrec : (stepOp s op).get_lock_misses + ops.length < U64 := by
      rcases hst with h2 | h2 <;> rw [h2] <;> omega
    have hih := ih (stepOp s op) hrec
    have hle : s.get_lock_misses ≤ (stepOp s op).get_lock_misses := by
      rcases hst with h2 | h2 <;> omega
    calc s.get_lock_misses ≤ (stepOp s op).get_lock_misses := hle
      _ ≤ (runOps (stepOp s op) ops).get_lock_misses := hih

end StorageLemmas

/-- Counterexample to C2 as stated: on a concrete storage, a `fold` call
that times out, and likewise a `len` call that times out, leave
`lock_failures` at 0 instead of incrementing it by exactly one. -/
theorem C2_lock_misses_counterexample :
    ((DebugStoreStorage.new 4 20 : DebugStoreStorage Nat).fold 0 (fun a _ => a)
          false).1.get_lock_misses
        ≠ (DebugStoreStorage.new 4 20 : DebugStoreStorage Nat).get_lock_misses + 1 ∧
      ((DebugStoreStorage.new 4 20 : DebugStoreStorage Nat).len
          false).1.get_lock_misses
        ≠ (DebugStoreStorage.new 4 20 : DebugStoreStorage Nat).get_lock_misses + 1 := by
  constructor
  · decide
  · decide

/-- C2 (amended): only `insert` increments `lock_failures` on a lock
timeout — by exactly one, mutating nothing else; `fold` and `len` leave
the whole storage state unchanged whether or not they time out; the
counter is never decremented, so `get_lock_misses` is non-decreasing
across any sequence of calls (within the `u64` range). -/
theorem C2_lock_misses_amended (s : DebugStoreStorage Nat)
    (ops : List (StorageOp Nat))
    (hnw : s.get_lock_misses + ops.length < U64) :
    (∀ v : Nat, s.get_lock_misses + 1 < U64 →
        (s.insert v false).1.get_lock_misses = s.get_lock_misses + 1 ∧
          (s.insert v false).1.buffer = s.buffer) ∧
      (∀ v : Nat, (s.insert v true).1.get_lock_misses = s.get_lock_misses) ∧
      (∀ (U : Type) (init : U) (func : U → Nat → U) (acq : Bool),
        (s.fold init func acq).1 = s) ∧
      (∀ acq : Bool, (s.len acq).1 = s) ∧
      s.get_lock_misses ≤ (runOps s ops).get_lock_misses := by
  refine ⟨?_, ?_, ?_, ?_, lock_misses_runOps s ops hnw⟩
  · intro v hlt
    constructor
    · have hlt' : s.lock_failures + 1 < U64 := hlt
      simp [DebugStoreStorage.insert, DebugStoreStorage.get_lock_misses,
        Nat.mod_eq_of_lt hlt']
    · rfl
  · intro v
    rfl
  · intro U init func acq
    rcases acq with _ | _ <;> rfl
  · intro acq
    rcases acq with _ | _ <;> rfl

/-- Witness for C2 (amended) on a fresh storage with one timed-out `fold`
and one timed-out `insert`. -/
theorem C2_lock_misses_amended_witness :
    (DebugStoreStorage.new 4 20 : DebugStoreStorage Nat).get_lock_misses
        + [StorageOp.foldOp true, StorageOp.insertOp 9 false].length < U64 ∧
      (DebugStoreStorage.new 4 20 : DebugStoreStorage Nat).get_lock_misses
        ≤ (runOps (DebugStoreStorage.new 4 20)
            [StorageOp.foldOp true, StorageOp.insertOp 9 false]).get_lock_misses ∧
      ((DebugStoreStorage.new 4 20 : DebugStoreStorage Nat).insert 9
          false).1.get_lock_misses
        = (DebugStoreStorage.new 4 20 : DebugStoreStorage Nat).get_lock_misses + 1 :=
  ⟨by decide,
    (C2_lock_misses_amended (DebugStoreStorage.new 4 20)
      [StorageOp.foldOp true, StorageOp.insertOp 9 false] (by decide)).2.2.2.2,
    ((C2_lock_misses_amended (DebugStoreStorage.new 4 20)
      [StorageOp.foldOp true, StorageOp.insertOp 9 false] (by decide)).1 9
        (by decide)).1⟩

lemma foldl_append_singleton (l acc : List α) :
    l.foldl (fun a e => a ++ [e]) acc = acc ++ l := by
  induction l generalizing acc with
  | nil => simp
  | cons x xs ih => simp [ih]

/-- C5: for the mutex-based backend, `fold` is non-destructive — a second
`fold` right after a first one (no intervening `insert`) observes the same
result — and each successful `fold` applies the combine function
left-to-right over a copy of the buffer's ordered contents starting from
`init`; folding with a list collector observes exactly
`to_vec_ordered`. -/
theorem C5_fold_nondestructive {α : Type} (s : DebugStoreStorage α)
    {U : Type} (init : U) (func : U → α → U) :
    (((s.fold init func true).1).fold init func true).2
        = (s.fold init func true).2 ∧
      (s.fold init func true).2
        = some (s.buffer.to_vec_ordered.foldl func init) ∧
      (s.fold [] (fun acc e => acc ++ [e]) true).2
        = some s.buffer.to_vec_ordered := by
  refine ⟨rfl, rfl, ?_⟩
  simp [DebugStoreStorage.fold, foldl_append_singleton]

lemma drainLoop_eq {α U : Type} (func : U → α → U) (l : List α) (acc : U) :
    drainLoop func l acc = (l.foldl func acc, []) := by
  induction l generalizing acc with
  | nil => rfl
  | cons x xs ih => simp [drainLoop, ih]

/-- C6: for the queue-based backend, `fold` is a destructive drain — after
any `fold` the buffer is empty, so `len` returns 0 and an immediately
following `fold` with the same (or any) `init` returns `init` unchanged;
the fold result itself combines the drained elements in FIFO order. -/
theorem C6_queue_fold_drains {α : Type} {N : Nat} (s : Storage α N)
    {U V : Type} (init : U) (func : U → α → U) (init2 : V) (func2 : V → α → V) :
    ((s.fold init func).2).len = 0 ∧
      (((s.fold init func).2).fold init2 func2).1 = init2 ∧
      (s.fold init func).1 = s.insertion_buffer.items.foldl func init := by
  refine ⟨?_, ?_, ?_⟩
  · simp [Storage.fold, Storage.len, drainLoop_eq]
  · simp [Storage.fold, drainLoop_eq]
  · simp [Storage.fold, drainLoop_eq]

/-- C7: in both cores, `end(0, _)` inserts no event — it is a no-op however
many times it is called — and for `id ≠ 0`, `end(id, _)` submits a
`DurationEnd` event with that id and no name to the storage. -/
theorem C7_end_semantics (s : DebugStore) (q : QueueCore.DebugStore)
    (id : Nat) (data : List (String × String)) (now : Nat) (acq : Bool) (n : Nat) :
    s.endEvent 0 data now acq = s ∧
      (fun t : DebugStore => t.endEvent 0 data now acq)^[n] s = s ∧
      (id ≠ 0 →
        s.endEvent id data now acq
          = { s with
              event_store := (s.event_store.insert
                { id := id, name := none, timestamp := now
                  eventType := EventType.DurationEnd, data := data } acq).1 }) ∧
      q.endEvent 0 data now = q ∧
      (id ≠ 0 →
        q.endEvent id data now
          = { q with
              event_store := q.event_store.insert
                { id := id, name := none, timestamp := now
                  eventType := EventType.DurationEnd, data := data } }) := by
  have h0 : s.endEvent 0 data now acq = s := by
    simp [DebugStore.endEvent, DebugStore.NON_CLOSABLE_ID]
  refine ⟨h0, ?_, ?_, ?_, ?_⟩
  · induction n with
    | zero => rfl
    | succ k ihn =>
      rw [Function.iterate_succ_apply, h0]
      exact ihn
  · intro h
    simp [DebugStore.endEvent, DebugStore.NON_CLOSABLE_ID, h]
  · simp [QueueCore.DebugStore.endEvent, QueueCore.DebugStore.NON_CLOSABLE_ID]
  · intro h
    simp [QueueCore.DebugStore.endEvent, QueueCore.DebugStore.NON_CLOSABLE_ID, h]

/-- Witness for C7 on a fresh mutex-based store, a fresh queue-based store,
and id 1. -/
theorem C7_end_semantics_witness :
    (DebugStore.new 16 20).endEvent 0 [] 7 true = DebugStore.new 16 20 ∧
      ((1 : Nat) ≠ 0) ∧
      (DebugStore.new 16 20).endEvent 1 [] 7 true
        = { DebugStore.new 16 20 with
            event_store := ((DebugStore.new 16 20).event_store.insert
              { id := 1, name := none, timestamp := 7
                eventType := EventType.DurationEnd, data := [] } true).1 } ∧
      QueueCore.DebugStore.new.endEvent 0 [] 7 = QueueCore.DebugStore.new :=
  ⟨(C7_end_semantics (DebugStore.new 16 20) QueueCore.DebugStore.new
      1 [] 7 true 0).1,
    by decide,
    (C7_end_semantics (DebugStore.new 16 20) QueueCore.DebugStore.new
      1 [] 7 true 0).2.2.1 (by decide),
    (C7_end_semantics (DebugStore.new 16 20) QueueCore.DebugStore.new
      1 [] 7 true 0).2.2.2.1⟩

lemma generate_id_fst_ne_zero (s : DebugStore) : s.generate_id.1 ≠ 0 := by
  unfold DebugStore.generate_id
  split
  · simp only []
    intro h
    rename_i hz
    rw [DebugStore.NON_CLOSABLE_ID] at hz
    rw [hz] at h
    norm_num [U64] at h
  · rename_i hz
    rw [DebugStore.NON_CLOSABLE_ID] at hz
    exact hz

lemma queue_generate_id_fst_ne_zero (s : QueueCore.DebugStore) :
    s.generate_id.1 ≠ 0 := by
  unfold QueueCore.DebugStore.generate_id
  split
  · simp only []
    intro h
    rename_i hz
    rw [QueueCore.DebugStore.NON_CLOSABLE_ID] at hz
    rw [hz] at h
    norm_num [U64] at h
  · rename_i hz
    rw [QueueCore.DebugStore.NON_CLOSABLE_ID] at hz
    exact hz

/-- Counterexample to C1 as stated: on a concrete mutex-based store whose
insert times out, `begin` returns the reserved sentinel 0, not the freshly
generated non-zero id. -/
theorem C1_begin_counterexample :
    ((DebugStore.new 16 20).begin "x" [] 0 false).1 = 0 ∧
      ((DebugStore.new 16 20).generate_id).1 = 1 := by
  constructor
  · decide
  · decide

/-- C1 (amended): in the mutex-based core, `begin` returns the freshly
generated non-zero id exactly when the storage insert succeeded, and
returns the sentinel 0 when the insert timed out; in the queue-based core,
`begin` always returns the freshly generated id and it is never 0. -/
theorem C1_begin_amended (s : DebugStore) (q : QueueCore.DebugStore)
    (name : String) (data : List (String × String)) (now : Nat) :
    ((s.begin name data now true).1 = s.generate_id.1 ∧
        (s.begin name data now true).1 ≠ 0) ∧
      (s.begin name data now false).1 = 0 ∧
      ((q.begin name data now).1 = q.generate_id.1 ∧
        (q.begin name data now).1 ≠ 0) := by
  refine ⟨⟨?_, ?_⟩, ?_, rfl, ?_⟩
  · rfl
  · exact generate_id_fst_ne_zero s
  · rfl
  · exact queue_generate_id_fst_ne_zero q

/-- Tail part of the `"||"`-joined rendering of an event list: every
element is preceded by the delimiter. -/
def joinTail (eventStr : Event → String) : List Event → String
  | [] => ""
  | e :: rest => "||" ++ eventStr e ++ joinTail eventStr rest

/-- The `"||"`-joined rendering of an event list (the `event ( "||" event )*`
part of the snapshot grammar). -/
def joinEvents (eventStr : Event → String) : List Event → String
  | [] => ""
  | e :: rest => eventStr e ++ joinTail eventStr rest

lemma append_ne_empty_left (s t : String) (h : s ≠ "") : s ++ t ≠ "" := by
  intro he
  apply h
  apply String.ext
  have hd := congrArg String.data he
  rw [String.data_append] at hd
  exact (List.append_eq_nil.mp hd).1

lemma foldl_display_join (eventStr : Event → String) (l : List Event) :
    ∀ acc : String, acc ≠ "" →
      l.foldl (fun a e => (if a.isEmpty then a else a ++ "||") ++ eventStr e) acc
        = acc ++ joinTail eventStr l := by
  induction l with
  | nil =>
    intro acc _
    simp [joinTail]
  | cons e rest ih =>
    intro acc hacc
    have hne : acc.isEmpty = false := by
      rcases hb : acc.isEmpty with _ | _
      · rfl
      · exact absurd ((String.isEmpty_iff acc).mp hb) hacc
    have hif : (if acc.isEmpty then acc else acc ++ "||") = acc ++ "||" := by
      rw [if_neg]
      simp [hne]
    rw [List.foldl_cons, hif]
    have hacc' : (acc ++ "||") ++ eventStr e ≠ "" :=
      append_ne_empty_left _ _ (append_ne_empty_left _ _ hacc)
    rw [ih _ hacc', joinTail]
    simp [String.append_assoc]

lemma foldl_display_join_empty (eventStr : Event → String)
    (h : ∀ e, eventStr e ≠ "") (l : List Event) :
    l.foldl (fun a e => (if a.isEmpty then a else a ++ "||") ++ eventStr e) ""
      = joinEvents eventStr l := by
  cases l with
  | nil => rfl
  | cons e rest =>
    rw [List.foldl_cons]
    have hemp : ("" : String).isEmpty = true := by decide
    have h1 : (if ("" : String).isEmpty then ("" : String) else "" ++ "||")
        ++ eventStr e = eventStr e := by
      rw [if_pos hemp]
      simp
    rw [h1, foldl_display_join eventStr rest (eventStr e) (h e), joinEvents]

/-- Counterexample to C3 as stated: on a fresh mutex-based store with
uptime 5 and both locks acquired, the snapshot is the 5-field-header
string `"1,0,0,0,5::"`, not the claimed 3-field form
`version "," length "," uptime "::"` (which here would be `"1,0,5::"`). -/
theorem C3_display_counterexample :
    (DebugStore.new 16 20).display (fun _ => "e") 5 true true = "1,0,0,0,5::" ∧
      "1,0,0,0,5::" ≠ "1,0,5::" := by
  constructor
  · decide
  · decide

/-- C3 (amended): the mutex-based core's snapshot string is
`version "," total_entries "," length-or-sentinel "," lock_misses ","
uptime-ms "::"` followed by the events joined by the fixed delimiter
`"||"`; the length field renders as `-1` when `len` times out, the event
list is replaced entirely by the single placeholder `"-"` when the fold
times out, and the header fields are always emitted.  (Stated for event
renderings that are never the empty string, as with the real event
`Display`.) -/
theorem C3_display_amended (s : DebugStore) (eventStr : Event → String)
    (uptime_now : Nat) (len_acquired fold_acquired : Bool)
    (h : ∀ e, eventStr e ≠ "") :
    s.display eventStr uptime_now len_acquired fold_acquired
      = toString DebugStore.ENCODE_VERSION ++ "," ++ toString s.total_entries
          ++ "," ++
          (if len_acquired then toString (s.event_store.buffer.len : Int)
            else "-1")
          ++ "," ++ toString s.event_store.lock_failures ++ ","
          ++ toString uptime_now ++ "::"
          ++ (if fold_acquired
              then joinEvents eventStr s.event_store.buffer.to_vec_ordered
              else "-") := by
  have hjoin := foldl_display_join_empty eventStr h s.event_store.buffer.to_vec_ordered
  have hneg : toString (-1 : Int) = "-1" := by decide
  rcases len_acquired with _ | _ <;> rcases fold_acquired with _ | _ <;>
    simp [DebugStore.display, DebugStoreStorage.len, DebugStoreStorage.fold,
      DebugStoreStorage.get_lock_misses, hjoin, hneg, String.append_assoc]

/-- Witness for C3 (amended): a fresh store with both locks timed out
renders the always-present header with the `-1` length sentinel and the
`"-"` body placeholder. -/
theorem C3_display_amended_witness :
    (DebugStore.new 16 20).display (fun _ => "e") 5 false false
      = toString DebugStore.ENCODE_VERSION ++ "," ++
          toString (DebugStore.new 16 20).total_entries ++ "," ++
          (if false then
            toString ((DebugStore.new 16 20).event_store.buffer.len : Int)
            else "-1")
          ++ "," ++ toString (DebugStore.new 16 20).event_store.lock_failures
          ++ "," ++ toString 5 ++ "::"
          ++ (if false then
              joinEvents (fun _ => "e")
                (DebugStore.new 16 20).event_store.buffer.to_vec_ordered
              else "-") :=
  C3_display_amended (DebugStore.new 16 20) (fun _ => "e") 5 false false
    (fun _ hh => (by decide : ¬("e" : String) = "") hh)

end DebugStoreModel
